import Mathlib

/-!
Shallow embedding of the fileshare repository's shared-storage service:
the message ledger operations (`safeReadMessages`, `appendMessage`,
`appendMessageWithFiles`, `deleteMessageById`, `updateMessageById`),
the filename validity predicate and path resolution (`isValidFilename`,
`getFilePath`, `getSharedFilePath`), the file delete operations
(`deleteSharedFile`, `deleteFile`), and the upload route's caption
derivation (`deriveUploadText`, `postUpload`).

Platform boundaries (the JavaScript runtime and the filesystem) are
modelled explicitly: `jsTrim` models `String.prototype.trim`,
`jsToNumber` models `Number()` coercion on the relevant fragment,
`natRepr` models number-to-string conversion for nonnegative integers,
`JSON.parse` and `path.resolve` are abstract parameters, and the
filesystem state (ledger file content, file existence, unlink outcome)
is passed in explicitly.  Each mutating ledger operation returns the
list of `writeMessages` calls it performed together with its outcome,
so that write-on-error behaviour is visible in the model.
-/

namespace Fileshare

/-- Model of a JavaScript whitespace character (the ASCII fragment
relevant to `String.prototype.trim`). -/
def isWs (c : Char) : Bool :=
  c = ' ' || c = '\t' || c = '\n' || c = '\r' || c.toNat = 11 || c.toNat = 12

/-- Drop leading whitespace characters. -/
def dropWs : List Char → List Char
  | [] => []
  | c :: cs => if isWs c then dropWs cs else c :: cs

/-- Trim both ends of a character list (drop a whitespace run at each end). -/
def trimChars (l : List Char) : List Char :=
  (dropWs (dropWs l).reverse).reverse

/-- Model of JavaScript `String.prototype.trim`. -/
def jsTrim (s : String) : String :=
  ⟨trimChars s.data⟩

/-- Does `pat` occur as a leading segment of `l`? -/
def startsWithList : List Char → List Char → Bool
  | [], _ => true
  | _ :: _, [] => false
  | p :: ps, c :: cs => p = c && startsWithList ps cs

/-- Does `pat` occur anywhere inside `l`?  Model of `String.prototype.includes`
on the containing side. -/
def containsList (pat : List Char) : List Char → Bool
  | [] => startsWithList pat []
  | c :: cs => startsWithList pat (c :: cs) || containsList pat cs

/-- Model of JavaScript `s.includes(sub)`. -/
def jsIncludes (s sub : String) : Bool :=
  containsList sub.data s.data

/-- Model of JavaScript `s.startsWith(pre)`. -/
def jsStartsWith (s pre : String) : Bool :=
  startsWithList pre.data s.data

/-- Decimal digit character for a value below ten. -/
def digitChar (d : Nat) : Char :=
  Char.ofNat (48 + d)

/-- Worker for `natToDigits`: prepends the decimal digits of `n` onto
`acc`, most significant first.  `fuel` only bounds the recursion depth;
`natToDigits` supplies enough of it. -/
def natToDigitsAux : Nat → Nat → List Char → List Char
  | 0, _, acc => acc
  | fuel + 1, n, acc =>
    if n < 10 then digitChar n :: acc
    else natToDigitsAux fuel (n / 10) (digitChar (n % 10) :: acc)

/-- Decimal digit list of a nonnegative integer, most significant first.
Model of the digit sequence JavaScript produces for an integer in a
template literal. -/
def natToDigits (n : Nat) : List Char :=
  natToDigitsAux (n + 1) n []

/-- Model of JavaScript number-to-string conversion for nonnegative
integers (as in `` `${n} files` ``). -/
def natRepr (n : Nat) : String :=
  ⟨natToDigits n⟩

/-- A JavaScript value as seen by the service entry points: `undefined`,
`null`, a string, an integer number, or some other defined non-string
value. -/
inductive JsVal where
  | undef
  | nullV
  | str (s : String)
  | num (n : Int)
  | other
deriving DecidableEq

/-- Model of `typeof v === 'string' ? v.trim() : ''`, the coercion the
service applies to `text` and `note` inputs. -/
def jsTextTrim (v : JsVal) : String :=
  match v with
  | .str s => jsTrim s
  | _ => ""

/-- Numeric value of a decimal digit list. -/
def digitsToNat (l : List Char) : Nat :=
  l.foldl (fun a c => a * 10 + (c.toNat - 48)) 0

/-- Model of JavaScript `Number()` coercion, restricted to the fragment the
service receives: `null` and whitespace-only strings coerce to `0`,
strings of decimal digits coerce to their value, `undefined`,
non-numeric strings and other non-numeric values are non-finite
(`none` stands for NaN). -/
def jsToNumber (v : JsVal) : Option Int :=
  match v with
  | .undef => none
  | .nullV => some 0
  | .num n => some n
  | .other => none
  | .str s =>
    let t := jsTrim s
    if t = "" then some 0
    else if t.data.all (fun c => c.isDigit) then some (digitsToNat t.data)
    else none

/-- Stable error codes thrown by the service (`err.code` in the source),
plus `fs` for a filesystem error surfaced unchanged. -/
inductive SvcErr where
  | einvalText
  | einvalId
  | enoent
  | einvalFilename
  | fs (code : String)
deriving DecidableEq

/-- Attachment metadata recorded on an upload message (`MessageFile`). -/
structure MessageFile where
  originalName : String
  filename : String
  size : Nat
  mimetype : String
  url : String
deriving DecidableEq

/-- A persisted message record.  `note = none` / `files = none` model the
absence of the optional field in the JSON object. -/
structure Message where
  id : Int
  text : String
  createdAt : String
  note : Option String := none
  files : Option (List MessageFile) := none
deriving DecidableEq

/-- JSON value, for modelling `JSON.parse` output. -/
inductive Json where
  | null
  | bool (b : Bool)
  | num (n : Int)
  | str (s : String)
  | arr (xs : List Json)
  | obj (fields : List (String × Json))

/-- `safeReadMessages`: the ledger file state is `none` when the file is
absent and `some raw` otherwise; `parse` models `JSON.parse`, returning
`none` when parsing throws.  Absent file, blank content, a parse error,
or a non-array parse all yield the empty list; an array yields its
elements (the source casts them without validating). -/
def safeReadMessages (parse : String → Option Json) (file : Option String) :
    List Json :=
  match file with
  | none => []
  | some raw =>
    if jsTrim raw = "" then []
    else
      match parse raw with
      | none => []
      | some (Json.arr xs) => xs
      | some _ => []

/-- Remove the first element whose `id` equals `n`, returning it and the
remaining list.  Models `findIndex` followed by `splice(idx, 1)`. -/
def removeFirstById (n : Int) : List Message → Option (Message × List Message)
  | [] => none
  | m :: ms =>
    if m.id = n then some (m, ms)
    else (removeFirstById n ms).map (fun r => (r.1, m :: r.2))

/-- Apply `f` to the first element whose `id` equals `n`, returning the
updated element and the updated list.  Models `findIndex` followed by
`messages[idx] = updated`. -/
def updateFirstById (n : Int) (f : Message → Message) :
    List Message → Option (Message × List Message)
  | [] => none
  | m :: ms =>
    if m.id = n then some (f m, f m :: ms)
    else (updateFirstById n f ms).map (fun r => (r.1, m :: r.2))

/-- `appendMessage`.  `now` models `Date.now()`, `nowIso` models
`new Date().toISOString()`, and `ledger` is the list read by
`safeReadMessages`.  The first component collects the `writeMessages`
calls performed, in order; the second is the outcome. -/
def appendMessage (now : Int) (nowIso : String) (text : JsVal)
    (ledger : List Message) : List (List Message) × Except SvcErr Message :=
  let trimmed := jsTextTrim text
  if trimmed = "" then ([], .error .einvalText)
  else
    let entry : Message := { id := now, text := trimmed, createdAt := nowIso }
    ([ledger ++ [entry]], .ok entry)

/-- `appendMessageWithFiles`.  A non-array `files` argument is modelled as
the empty list (both throw the same `EINVAL_TEXT` error). -/
def appendMessageWithFiles (now : Int) (nowIso : String) (text : JsVal)
    (files : List MessageFile) (ledger : List Message) :
    List (List Message) × Except SvcErr Message :=
  let trimmed := jsTextTrim text
  if files = [] then ([], .error .einvalText)
  else
    let caption :=
      if trimmed = "" then
        "Uploaded " ++ natRepr files.length ++ " file" ++
          (if files.length = 1 then "" else "s")
      else trimmed
    let entry : Message :=
      { id := now, text := caption, createdAt := nowIso, files := some files }
    ([ledger ++ [entry]], .ok entry)

/-- `deleteMessageById`. -/
def deleteMessageById (id : JsVal) (ledger : List Message) :
    List (List Message) × Except SvcErr Message :=
  match jsToNumber id with
  | none => ([], .error .einvalId)
  | some n =>
    match removeFirstById n ledger with
    | none => ([], .error .enoent)
    | some (removed, rest) => ([rest], .ok removed)

/-- The record merge `updateMessageById` performs on the found record:
`text` is overwritten when provided (already validated non-blank), `note`
is overwritten when provided, with a blank trimmed note deleting the
field (`delete updated.note`). -/
def applyUpdate (text note : JsVal) (m : Message) : Message :=
  { m with
    text := if text = JsVal.undef then m.text else jsTextTrim text
    note :=
      if note = JsVal.undef then m.note
      else if jsTextTrim note = "" then none
      else some (jsTextTrim note) }

/-- `updateMessageById`.  `text`/`note` equal to `JsVal.undef` model an
absent property (`typeof x === 'undefined'`). -/
def updateMessageById (id : JsVal) (text note : JsVal) (ledger : List Message) :
    List (List Message) × Except SvcErr Message :=
  match jsToNumber id with
  | none => ([], .error .einvalId)
  | some n =>
    if text = JsVal.undef ∧ note = JsVal.undef then ([], .error .einvalText)
    else if text ≠ JsVal.undef ∧ jsTextTrim text = "" then
      ([], .error .einvalText)
    else
      match updateFirstById n (applyUpdate text note) ledger with
      | none => ([], .error .enoent)
      | some (updated, newLedger) => ([newLedger], .ok updated)

/-- `path.sep` on the POSIX host. -/
def sep : String := "/"

/-- Model of `path.join(dir, name)` for a single separator-free name. -/
def jsPathJoin (dir name : String) : String :=
  dir ++ "/" ++ name

/-- `isValidFilename` (= `isValidSharedFilename`).  A non-string argument
is modelled as `none`; the source rejects it together with the empty
string via `!filename || typeof filename !== 'string'`. -/
def isValidFilename (filename : Option String) : Bool :=
  match filename with
  | none => false
  | some s =>
    if s = "" then false
    else if jsIncludes s "/" || jsIncludes s "\\" || jsIncludes s ".." then
      false
    else if jsStartsWith s "." then false
    else if 255 < s.data.length then false
    else true

/-- `getFilePath` (Express file service).  `resolve` models
`path.resolve`; `sharedDir` is the shared directory path constant. -/
def getFilePath (resolve : String → String) (sharedDir : String)
    (filename : Option String) : Except SvcErr String :=
  if !isValidFilename filename then .error .einvalFilename
  else
    let name := filename.getD ""
    let filePath := jsPathJoin sharedDir name
    let normalizedShared := resolve sharedDir ++ sep
    let normalizedFile := resolve filePath
    if jsStartsWith normalizedFile normalizedShared then .ok filePath
    else .error .einvalFilename

/-- `getSharedFilePath` (Next.js message service); identical logic to
`getFilePath` but both rejections carry the code `EINVAL_TEXT`. -/
def getSharedFilePath (resolve : String → String) (sharedDir : String)
    (filename : Option String) : Except SvcErr String :=
  if !isValidFilename filename then .error .einvalText
  else
    let name := filename.getD ""
    let filePath := jsPathJoin sharedDir name
    let normalizedShared := resolve sharedDir ++ sep
    let normalizedFile := resolve filePath
    if jsStartsWith normalizedFile normalizedShared then .ok filePath
    else .error .einvalText

/-- `deleteSharedFile` (Next.js): best-effort delete.  `exists_` models
`fs.existsSync`; `unlink` models `fs.unlinkSync`, returning the thrown
error's code on failure. -/
def deleteSharedFile (resolve : String → String) (sharedDir : String)
    (exists_ : String → Bool) (unlink : String → Except String Unit)
    (filename : Option String) : Except SvcErr Bool :=
  match getSharedFilePath resolve sharedDir filename with
  | .error e => .error e
  | .ok filePath =>
    if exists_ filePath = false then .ok false
    else
      match unlink filePath with
      | .ok _ => .ok true
      | .error code => if code = "ENOENT" then .ok false else .error (.fs code)

/-- `deleteFile` (Express file service): throws `ENOENT` when the target
file is absent. -/
def deleteFile (resolve : String → String) (sharedDir : String)
    (exists_ : String → Bool) (unlink : String → Except String Unit)
    (filename : Option String) : Except SvcErr Unit :=
  match getFilePath resolve sharedDir filename with
  | .error e => .error e
  | .ok filePath =>
    if exists_ filePath = false then .error .enoent
    else
      match unlink filePath with
      | .ok _ => .ok ()
      | .error code => .error (.fs code)

/-- The upload route's caption derivation:
`clientText?.trim() || (N === 1 ? uploaded[0].originalName : N + " files")`.
`clientText = none` models an absent / non-string form field. -/
def deriveUploadText (clientText : Option String)
    (uploaded : List MessageFile) : String :=
  let t := match clientText with
    | some s => jsTrim s
    | none => ""
  if t = "" then
    match uploaded with
    | [f] => f.originalName
    | _ => natRepr uploaded.length ++ " files"
  else t

/-- The upload route `POST`: derives the caption and calls
`appendMessageWithFiles` with it. -/
def postUpload (now : Int) (nowIso : String) (clientText : Option String)
    (uploaded : List MessageFile) (ledger : List Message) :
    List (List Message) × Except SvcErr Message :=
  appendMessageWithFiles now nowIso (JsVal.str (deriveUploadText clientText uploaded))
    uploaded ledger

/-- A tiny concrete parser, used only to instantiate theorems that are
generic in the `JSON.parse` model at concrete inputs. -/
def parse0 : String → Option Json := fun s =>
  if s = "[1]" then some (Json.arr [Json.num 1])
  else if s = "0" then some (Json.num 0)
  else none

/-! ### Helper lemmas about the string model -/

theorem dropWs_head_not_ws (l : List Char) :
    ∀ c cs, dropWs l = c :: cs → isWs c = false := by
  induction l with
  | nil => intro c cs h; simp [dropWs] at h
  | cons a as ih =>
    intro c cs h
    simp only [dropWs] at h
    by_cases ha : isWs a
    · rw [if_pos ha] at h
      exact ih c cs h
    · rw [if_neg ha] at h
      injection h with h1 _
      subst h1
      simp only [Bool.not_eq_true] at ha
      exact ha

theorem dropWs_suffix (l : List Char) : ∃ p, l = p ++ dropWs l := by
  induction l with
  | nil => exact ⟨[], rfl⟩
  | cons a as ih =>
    by_cases ha : isWs a
    · obtain ⟨p, hp⟩ := ih
      refine ⟨a :: p, ?_⟩
      simp only [dropWs, if_pos ha, List.cons_append]
      exact congrArg (a :: ·) hp
    · exact ⟨[], by simp [dropWs, ha]⟩

theorem dropWs_eq_cons_self (c : Char) (cs : List Char) (h : isWs c = false) :
    dropWs (c :: cs) = c :: cs := by
  simp [dropWs, h]

theorem dropWs_getLast? (l : List Char) (h : dropWs l ≠ []) :
    (dropWs l).getLast? = l.getLast? := by
  obtain ⟨p, hp⟩ := dropWs_suffix l
  calc (dropWs l).getLast? = (p ++ dropWs l).getLast? :=
        (List.getLast?_append_of_ne_nil p h).symm
    _ = l.getLast? := by rw [← hp]

theorem trimChars_eq_self (l : List Char)
    (h1 : ∀ c cs, l = c :: cs → isWs c = false)
    (h2 : ∀ c, l.getLast? = some c → isWs c = false) :
    trimChars l = l := by
  cases l with
  | nil => rfl
  | cons a as =>
    have ha : isWs a = false := h1 a as rfl
    have hd : dropWs (a :: as) = a :: as := dropWs_eq_cons_self a as ha
    unfold trimChars
    rw [hd]
    cases hr : (a :: as).reverse with
    | nil => exact absurd hr (by simp)
    | cons b bs =>
      have hb : isWs b = false := by
        refine h2 b ?_
        rw [← List.head?_reverse, hr]
        rfl
      rw [dropWs_eq_cons_self b bs hb, ← hr]
      simp

theorem trimChars_head_not_ws (l : List Char) :
    ∀ c cs, trimChars l = c :: cs → isWs c = false := by
  intro c cs h
  unfold trimChars at h
  have hBne : dropWs (dropWs l).reverse ≠ [] := by
    intro hB0
    rw [hB0] at h
    simp at h
  have hhead : (dropWs (dropWs l).reverse).reverse.head? = some c := by
    rw [h]
    rfl
  rw [List.head?_reverse] at hhead
  have hXlast : ((dropWs l).reverse).getLast? = some c := by
    rw [← dropWs_getLast? ((dropWs l).reverse) hBne]
    exact hhead
  rw [List.getLast?_reverse] at hXlast
  cases hdl : dropWs l with
  | nil => rw [hdl] at hXlast; simp at hXlast
  | cons d ds =>
    rw [hdl] at hXlast
    have hdc : d = c := by simpa using hXlast
    exact hdc ▸ dropWs_head_not_ws l d ds hdl

theorem trimChars_getLast_not_ws (l : List Char) :
    ∀ c, (trimChars l).getLast? = some c → isWs c = false := by
  intro c h
  unfold trimChars at h
  rw [List.getLast?_reverse] at h
  cases hB : dropWs (dropWs l).reverse with
  | nil => rw [hB] at h; simp at h
  | cons b bs =>
    rw [hB] at h
    have hbc : b = c := by simpa using h
    exact hbc ▸ dropWs_head_not_ws _ b bs hB

theorem trimChars_idem (l : List Char) : trimChars (trimChars l) = trimChars l :=
  trimChars_eq_self _ (trimChars_head_not_ws l) (trimChars_getLast_not_ws l)

theorem jsTrim_idem (s : String) : jsTrim (jsTrim s) = jsTrim s :=
  congrArg String.mk (trimChars_idem s.data)

theorem natToDigitsAux_mem (fuel : Nat) :
    ∀ (n : Nat) (acc : List Char), ∀ c ∈ natToDigitsAux fuel n acc,
      (∃ d, d < 10 ∧ c = digitChar d) ∨ c ∈ acc := by
  induction fuel with
  | zero => intro n acc c hc; exact Or.inr hc
  | succ fuel ih =>
    intro n acc c hc
    simp only [natToDigitsAux] at hc
    by_cases h : n < 10
    · rw [if_pos h] at hc
      rcases List.mem_cons.mp hc with h1 | h1
      · exact Or.inl ⟨n, h, h1⟩
      · exact Or.inr h1
    · rw [if_neg h] at hc
      rcases ih (n / 10) (digitChar (n % 10) :: acc) c hc with h1 | h1
      · exact Or.inl h1
      · rcases List.mem_cons.mp h1 with h2 | h2
        · exact Or.inl ⟨n % 10, Nat.mod_lt _ (by omega), h2⟩
        · exact Or.inr h2

theorem natToDigitsAux_ne_nil (fuel : Nat) :
    ∀ (n : Nat) (acc : List Char), (fuel ≠ 0 ∨ acc ≠ []) →
      natToDigitsAux fuel n acc ≠ [] := by
  induction fuel with
  | zero =>
    intro n acc h
    rcases h with h | h
    · exact absurd rfl h
    · exact h
  | succ fuel ih =>
    intro n acc _
    simp only [natToDigitsAux]
    by_cases hn : n < 10
    · rw [if_pos hn]; simp
    · rw [if_neg hn]
      exact ih (n / 10) (digitChar (n % 10) :: acc) (Or.inr (by simp))

theorem natToDigits_ne_nil (n : Nat) : natToDigits n ≠ [] :=
  natToDigitsAux_ne_nil (n + 1) n [] (Or.inl (by omega))

theorem digitChar_not_ws (d : Nat) (h : d < 10) : isWs (digitChar d) = false := by
  interval_cases d <;> decide

theorem natToDigits_not_ws (n : Nat) : ∀ c ∈ natToDigits n, isWs c = false := by
  intro c hc
  rcases natToDigitsAux_mem (n + 1) n [] c hc with ⟨d, hd, hcd⟩ | h
  · exact hcd ▸ digitChar_not_ws d hd
  · simp at h

theorem natRepr_files_clean (n : Nat) :
    jsTrim (natRepr n ++ " files") = natRepr n ++ " files" := by
  have hdata : (natRepr n ++ " files").data = natToDigits n ++ (" files").data :=
    String.data_append _ _
  have h1 : ∀ c cs, (natRepr n ++ " files").data = c :: cs → isWs c = false := by
    intro c cs h
    rw [hdata] at h
    cases hnd : natToDigits n with
    | nil => exact absurd hnd (natToDigits_ne_nil n)
    | cons d ds =>
      rw [hnd, List.cons_append] at h
      injection h with hdc _
      exact hdc ▸ natToDigits_not_ws n d (by rw [hnd]; exact List.mem_cons_self d ds)
  have h2 : ∀ c, (natRepr n ++ " files").data.getLast? = some c → isWs c = false := by
    intro c h
    rw [hdata, List.getLast?_append] at h
    have hs : ((" files" : String).data).getLast? = some 's' := by decide
    rw [hs] at h
    simp only [Option.or_some] at h
    have hsc := Option.some.inj h
    rw [← hsc]
    decide
  exact congrArg String.mk (trimChars_eq_self _ h1 h2)

theorem natRepr_files_ne_empty (n : Nat) : natRepr n ++ " files" ≠ "" := by
  intro h
  have hd := congrArg String.data h
  rw [String.data_append] at hd
  have hd' : natToDigits n ++ (" files" : String).data = ([] : List Char) := hd
  exact natToDigits_ne_nil n (List.append_eq_nil.mp hd').1

/-! ### Helper lemmas about the list operations -/

theorem removeFirstById_none_iff (n : Int) (l : List Message) :
    removeFirstById n l = none ↔ ∀ m ∈ l, m.id ≠ n := by
  induction l with
  | nil => simp [removeFirstById]
  | cons m ms ih =>
    by_cases hm : m.id = n
    · simp [removeFirstById, hm]
    · simp only [removeFirstById, if_neg hm, Option.map_eq_none', ih,
        List.forall_mem_cons]
      tauto

theorem updateFirstById_some (n : Int) (f : Message → Message) :
    ∀ (l : List Message) u l', updateFirstById n f l = some (u, l') →
      ∃ i, ∃ hi : i < l.length, u = f (l.get ⟨i, hi⟩) ∧ l' = l.set i u := by
  intro l
  induction l with
  | nil => intro u l' h; simp [updateFirstById] at h
  | cons m ms ih =>
    intro u l' h
    by_cases hm : m.id = n
    · rw [updateFirstById, if_pos hm] at h
      have h' : f m = u ∧ f m :: ms = l' := by
        constructor
        · exact congrArg Prod.fst (Option.some.inj h)
        · exact congrArg Prod.snd (Option.some.inj h)
      obtain ⟨hu, hl⟩ := h'
      refine ⟨0, by simp, by simp [← hu], ?_⟩
      rw [← hl, ← hu]
      simp
    · rw [updateFirstById, if_neg hm, Option.map_eq_some'] at h
      obtain ⟨⟨u', l''⟩, h1, h2⟩ := h
      have hu : u' = u := congrArg Prod.fst h2
      have hl : m :: l'' = l' := congrArg Prod.snd h2
      obtain ⟨i, hi, hu', hl'⟩ := ih u l'' (hu ▸ h1)
      refine ⟨i + 1, by simpa using Nat.succ_lt_succ hi, ?_, ?_⟩
      · simpa using hu'
      · rw [← hl, List.set_cons_succ, hl']

/-- When `appendMessageWithFiles` is called with a non-empty attachment
list and a string text whose trim is non-blank, the stored text is that
trim. -/
theorem appendMessageWithFiles_text (now : Int) (nowIso : String) (t : String)
    (files : List MessageFile) (ledger newLedger : List Message) (m : Message)
    (hf : files ≠ []) (ht : jsTrim t ≠ "")
    (h : appendMessageWithFiles now nowIso (JsVal.str t) files ledger =
      ([newLedger], .ok m)) :
    m.text = jsTrim t := by
  simp only [appendMessageWithFiles, jsTextTrim] at h
  rw [if_neg hf, if_neg ht] at h
  have h2 := congrArg Prod.snd h
  simp only at h2
  have h3 := Except.ok.inj h2
  rw [← h3]

/-! ### Claim theorems -/

/-- C1: for every input name, the path resolving operations either signal
the invalid-filename rejection or return the joined path, and any
returned path, once re-resolved, begins with the shared directory's
resolved path followed by the separator: no returned path lies outside
the shared root, for every behaviour of `path.resolve`. -/
theorem c1_resolved_path_inside_shared
    (resolve : String → String) (sharedDir : String) (filename : Option String) :
    (getFilePath resolve sharedDir filename = .error .einvalFilename ∨
      ∃ p, getFilePath resolve sharedDir filename = .ok p ∧
        jsStartsWith (resolve p) (resolve sharedDir ++ sep) = true)
  ∧ (getSharedFilePath resolve sharedDir filename = .error .einvalText ∨
      ∃ p, getSharedFilePath resolve sharedDir filename = .ok p ∧
        jsStartsWith (resolve p) (resolve sharedDir ++ sep) = true) := by
  constructor
  · by_cases hv : isValidFilename filename
    · by_cases hs : jsStartsWith (resolve (jsPathJoin sharedDir (filename.getD "")))
          (resolve sharedDir ++ sep) = true
      · exact Or.inr ⟨_, by simp [getFilePath, hv, hs], hs⟩
      · exact Or.inl (by simp [getFilePath, hv, hs])
    · exact Or.inl (by simp [getFilePath, hv])
  · by_cases hv : isValidFilename filename
    · by_cases hs : jsStartsWith (resolve (jsPathJoin sharedDir (filename.getD "")))
          (resolve sharedDir ++ sep) = true
      · exact Or.inr ⟨_, by simp [getSharedFilePath, hv, hs], hs⟩
      · exact Or.inl (by simp [getSharedFilePath, hv, hs])
    · exact Or.inl (by simp [getSharedFilePath, hv])

/-- C2: `safeReadMessages` is total and fail-safe: an absent ledger file,
blank content, unparsable content, or a parse result that is not an
array all yield the empty list, and an array parse yields exactly its
elements. -/
theorem c2_read_all_fail_safe (parse : String → Option Json) :
    safeReadMessages parse none = []
  ∧ (∀ raw, jsTrim raw = "" → safeReadMessages parse (some raw) = [])
  ∧ (∀ raw, parse raw = none → safeReadMessages parse (some raw) = [])
  ∧ (∀ raw xs, jsTrim raw ≠ "" → parse raw = some (Json.arr xs) →
      safeReadMessages parse (some raw) = xs)
  ∧ (∀ raw j, parse raw = some j → (∀ xs, j ≠ Json.arr xs) →
      safeReadMessages parse (some raw) = []) := by
  refine ⟨rfl, ?_, ?_, ?_, ?_⟩
  · intro raw h
    simp [safeReadMessages, h]
  · intro raw h
    by_cases ht : jsTrim raw = ""
    · simp [safeReadMessages, ht]
    · simp [safeReadMessages, ht, h]
  · intro raw xs ht hp
    simp [safeReadMessages, ht, hp]
  · intro raw j hp hj
    by_cases ht : jsTrim raw = ""
    · simp [safeReadMessages, ht]
    · cases j with
      | arr xs => exact absurd rfl (hj xs)
      | null => simp [safeReadMessages, ht, hp]
      | bool b => simp [safeReadMessages, ht, hp]
      | num n => simp [safeReadMessages, ht, hp]
      | str s => simp [safeReadMessages, ht, hp]
      | obj fields => simp [safeReadMessages, ht, hp]

/-- Witness for C2 at concrete ledger states. -/
theorem c2_read_all_fail_safe_witness :
    safeReadMessages parse0 none = []
  ∧ safeReadMessages parse0 (some "  ") = []
  ∧ safeReadMessages parse0 (some "junk") = []
  ∧ safeReadMessages parse0 (some "[1]") = [Json.num 1]
  ∧ safeReadMessages parse0 (some "0") = [] :=
  ⟨(c2_read_all_fail_safe parse0).1,
    (c2_read_all_fail_safe parse0).2.1 "  " rfl,
    (c2_read_all_fail_safe parse0).2.2.1 "junk" rfl,
    (c2_read_all_fail_safe parse0).2.2.2.1 "[1]" [Json.num 1] (by decide) rfl,
    (c2_read_all_fail_safe parse0).2.2.2.2 "0" (Json.num 0) rfl
      (fun xs h => Json.noConfusion h)⟩

/-- C3: the code derives ids from `Date.now()` alone, so two appends
falling in the same millisecond receive the same id: ids are neither
unique nor strictly increasing under rapid succession.  Evaluated at the
failing input (two calls with clock value 1000). -/
theorem c3_same_millisecond_id_collision :
    ∃ m1 m2 : Message,
      (appendMessage 1000 "2024-01-01T00:00:00.000Z" (JsVal.str "a") []).2 =
        Except.ok m1
      ∧ (appendMessage 1000 "2024-01-01T00:00:00.000Z" (JsVal.str "b") [m1]).2 =
        Except.ok m2
      ∧ m1.text = "a" ∧ m2.text = "b" ∧ m1 ≠ m2 ∧ m1.id = m2.id := by
  refine ⟨⟨1000, "a", "2024-01-01T00:00:00.000Z", none, none⟩,
    ⟨1000, "b", "2024-01-01T00:00:00.000Z", none, none⟩,
    rfl, rfl, rfl, rfl, by decide, rfl⟩

/-- C4: `isValidFilename` accepts exactly the candidates that are a
non-empty string, contain no `/`, `\` or `..`, do not start with `.`,
and are at most 255 characters long; everything else is rejected. -/
theorem c4_filename_validity_characterization :
    isValidFilename none = false
  ∧ ∀ s : String,
      isValidFilename (some s) = true ↔
        (s ≠ "" ∧ jsIncludes s "/" = false ∧ jsIncludes s "\\" = false ∧
         jsIncludes s ".." = false ∧ jsStartsWith s "." = false ∧
         s.data.length ≤ 255) := by
  refine ⟨rfl, fun s => ?_⟩
  by_cases h1 : s = ""
  · simp [isValidFilename, h1]
  · by_cases h2 : (jsIncludes s "/" || jsIncludes s "\\" || jsIncludes s "..") = true
    · simp only [isValidFilename, if_neg h1, if_pos h2]
      constructor
      · intro h
        exact absurd h (by decide)
      · rintro ⟨-, ha, hb, hc, -, -⟩
        rw [ha, hb, hc] at h2
        simp at h2
    · by_cases h3 : jsStartsWith s "." = true
      · simp only [isValidFilename, if_neg h1, if_neg h2, if_pos h3]
        constructor
        · intro h
          exact absurd h (by decide)
        · rintro ⟨-, -, -, -, hd, -⟩
          rw [hd] at h3
          exact absurd h3 (by decide)
      · by_cases h4 : 255 < s.data.length
        · simp only [isValidFilename, if_neg h1, if_neg h2, if_neg h3, if_pos h4]
          constructor
          · intro h
            exact absurd h (by decide)
          · rintro ⟨-, -, -, -, -, he⟩
            exact absurd h4 (by omega)
        · simp only [isValidFilename, if_neg h1, if_neg h2, if_neg h3, if_neg h4]
          have hsplit : jsIncludes s "/" = false ∧ jsIncludes s "\\" = false ∧
              jsIncludes s ".." = false := by
            cases hx : jsIncludes s "/" <;> cases hy : jsIncludes s "\\" <;>
              cases hz : jsIncludes s ".." <;> simp [hx, hy, hz] at h2 ⊢
          have h3f : jsStartsWith s "." = false := by
            cases hx : jsStartsWith s "."
            · rfl
            · exact absurd hx h3
          constructor
          · intro _
            exact ⟨h1, hsplit.1, hsplit.2.1, hsplit.2.2, h3f, by omega⟩
          · intro _
            trivial

/-- C5 counterexample: `appendMessageWithFiles` itself, given blank text
and a single attachment, stores the fallback caption `Uploaded 1 file`,
not the attachment's original name as the claim states. -/
theorem c5_counterexample_blank_text_single_attachment :
    ∃ m : Message,
      (appendMessageWithFiles 7 "T" JsVal.undef
        [⟨"photo.jpg", "k-photo.jpg", 3, "image/jpeg", "/shared/k-photo.jpg"⟩]
        []).2 = Except.ok m
      ∧ m.text = "Uploaded 1 file"
      ∧ m.text ≠ "photo.jpg" := by
  refine ⟨⟨7, "Uploaded 1 file", "T", none,
    some [⟨"photo.jpg", "k-photo.jpg", 3, "image/jpeg", "/shared/k-photo.jpg"⟩]⟩,
    rfl, rfl, by decide⟩

/-- C5 amended: the caption derivation happens in the upload route
(`postUpload`), which passes the derived text to
`appendMessageWithFiles`; the store itself falls back to
`Uploaded N file(s)` for blank text.  For blank or absent client text
the stored text is the single attachment's original name (provided that
name is non-blank and trimmed) or `"<N> files"` for N > 1 attachments;
non-blank client text is stored trimmed. -/
theorem c5_upload_caption_derivation
    (now : Int) (nowIso : String) (ledger newLedger : List Message)
    (f : MessageFile) (files : List MessageFile) (m : Message) :
    (jsTrim f.originalName = f.originalName → f.originalName ≠ "" →
      postUpload now nowIso none [f] ledger = ([newLedger], .ok m) →
      m.text = f.originalName)
  ∧ (2 ≤ files.length →
      postUpload now nowIso none files ledger = ([newLedger], .ok m) →
      m.text = natRepr files.length ++ " files")
  ∧ (∀ s, jsTrim s ≠ "" → files ≠ [] →
      postUpload now nowIso (some s) files ledger = ([newLedger], .ok m) →
      m.text = jsTrim s) := by
  refine ⟨?_, ?_, ?_⟩
  · intro ht hne hcall
    have hder : deriveUploadText none [f] = f.originalName := by
      simp [deriveUploadText]
    rw [postUpload, hder] at hcall
    have := appendMessageWithFiles_text now nowIso f.originalName [f] ledger
      newLedger m (by simp) (by rw [ht]; exact hne) hcall
    rw [this, ht]
  · intro hlen hcall
    have hder : deriveUploadText none files = natRepr files.length ++ " files" := by
      cases files with
      | nil => simp at hlen
      | cons a rest =>
        cases rest with
        | nil => simp at hlen
        | cons b rest2 => simp [deriveUploadText]
    rw [postUpload, hder] at hcall
    have hfne : files ≠ [] := by
      cases files with
      | nil => simp at hlen
      | cons a rest => simp
    have htne : jsTrim (natRepr files.length ++ " files") ≠ "" := by
      rw [natRepr_files_clean]
      exact natRepr_files_ne_empty files.length
    have := appendMessageWithFiles_text now nowIso _ files ledger newLedger m
      hfne htne hcall
    rw [this, natRepr_files_clean]
  · intro s hts hfne hcall
    have hder : deriveUploadText (some s) files = jsTrim s := by
      simp [deriveUploadText, hts]
    rw [postUpload, hder] at hcall
    have := appendMessageWithFiles_text now nowIso (jsTrim s) files ledger
      newLedger m hfne (by rw [jsTrim_idem]; exact hts) hcall
    rw [this, jsTrim_idem]

/-- Witness for C5 at concrete uploads. -/
theorem c5_upload_caption_derivation_witness :
    (⟨5, "photo.jpg", "T", none,
      some [⟨"photo.jpg", "a1", 3, "image/jpeg", "/shared/a1"⟩]⟩ : Message).text =
      "photo.jpg"
  ∧ (⟨5, "2 files", "T", none,
      some [⟨"photo.jpg", "a1", 3, "image/jpeg", "/shared/a1"⟩,
            ⟨"a.txt", "a2", 1, "text/plain", "/shared/a2"⟩]⟩ : Message).text =
      "2 files"
  ∧ (⟨5, "hi", "T", none,
      some [⟨"photo.jpg", "a1", 3, "image/jpeg", "/shared/a1"⟩]⟩ : Message).text =
      jsTrim " hi " :=
  ⟨(c5_upload_caption_derivation 5 "T" []
      [⟨5, "photo.jpg", "T", none,
        some [⟨"photo.jpg", "a1", 3, "image/jpeg", "/shared/a1"⟩]⟩]
      ⟨"photo.jpg", "a1", 3, "image/jpeg", "/shared/a1"⟩ [] _).1 rfl (by decide) rfl,
   ((c5_upload_caption_derivation 5 "T" []
      [⟨5, "2 files", "T", none,
        some [⟨"photo.jpg", "a1", 3, "image/jpeg", "/shared/a1"⟩,
              ⟨"a.txt", "a2", 1, "text/plain", "/shared/a2"⟩]⟩]
      ⟨"photo.jpg", "a1", 3, "image/jpeg", "/shared/a1"⟩
      [⟨"photo.jpg", "a1", 3, "image/jpeg", "/shared/a1"⟩,
       ⟨"a.txt", "a2", 1, "text/plain", "/shared/a2"⟩] _).2.1 (by decide) rfl).trans
      (by decide),
   (c5_upload_caption_derivation 5 "T" []
      [⟨5, "hi", "T", none,
        some [⟨"photo.jpg", "a1", 3, "image/jpeg", "/shared/a1"⟩]⟩]
      ⟨"photo.jpg", "a1", 3, "image/jpeg", "/shared/a1"⟩
      [⟨"photo.jpg", "a1", 3, "image/jpeg", "/shared/a1"⟩] _).2.2 " hi "
      (by decide) (by decide) rfl⟩

/-- C6 counterexample: the Express File Store `deleteFile` signals
`ENOENT` (an error) when the target is absent, instead of returning
`false` without error as the claim states. -/
theorem c6_counterexample_absent_file_signals_error :
    deleteFile (fun s => s) "/shared" (fun _ => false) (fun _ => Except.ok ())
      (some "a.txt") = Except.error SvcErr.enoent := rfl

/-- C6 amended: the Next.js `deleteSharedFile` is best-effort exactly as
the claim describes (absent target or a concurrent `ENOENT` yield
`false`, successful unlink yields `true`, any other filesystem error is
surfaced, invalid names are rejected); the Express `deleteFile` instead
signals `ENOENT` when the target is absent. -/
theorem c6_delete_best_effort
    (resolve : String → String) (sharedDir : String) (exists_ : String → Bool)
    (unlink : String → Except String Unit) (fn : Option String) (p : String) :
    (isValidFilename fn = false →
      deleteSharedFile resolve sharedDir exists_ unlink fn = .error .einvalText
      ∧ deleteFile resolve sharedDir exists_ unlink fn = .error .einvalFilename)
  ∧ (getSharedFilePath resolve sharedDir fn = .ok p →
      (exists_ p = false →
        deleteSharedFile resolve sharedDir exists_ unlink fn = .ok false)
      ∧ (exists_ p = true → unlink p = .ok () →
        deleteSharedFile resolve sharedDir exists_ unlink fn = .ok true)
      ∧ (exists_ p = true → unlink p = .error "ENOENT" →
        deleteSharedFile resolve sharedDir exists_ unlink fn = .ok false)
      ∧ (∀ c, exists_ p = true → unlink p = .error c → c ≠ "ENOENT" →
        deleteSharedFile resolve sharedDir exists_ unlink fn = .error (.fs c)))
  ∧ (getFilePath resolve sharedDir fn = .ok p → exists_ p = false →
      deleteFile resolve sharedDir exists_ unlink fn = .error .enoent) := by
  refine ⟨?_, ?_, ?_⟩
  · intro hv
    constructor
    · simp [deleteSharedFile, getSharedFilePath, hv]
    · simp [deleteFile, getFilePath, hv]
  · intro hok
    refine ⟨?_, ?_, ?_, ?_⟩
    · intro hex
      simp [deleteSharedFile, hok, hex]
    · intro hex hun
      simp [deleteSharedFile, hok, hex, hun]
    · intro hex hun
      simp [deleteSharedFile, hok, hex, hun]
    · intro c hex hun hc
      simp [deleteSharedFile, hok, hex, hun, hc]
  · intro hok hex
    simp [deleteFile, hok, hex]

/-- Witness for C6 at concrete filesystem states. -/
theorem c6_delete_best_effort_witness :
    deleteSharedFile (fun s => s) "/shared" (fun _ => false) (fun _ => Except.ok ())
      (some "../x") = Except.error SvcErr.einvalText
  ∧ deleteFile (fun s => s) "/shared" (fun _ => false) (fun _ => Except.ok ())
      (some "../x") = Except.error SvcErr.einvalFilename
  ∧ deleteSharedFile (fun s => s) "/shared" (fun _ => false) (fun _ => Except.ok ())
      (some "a.txt") = Except.ok false
  ∧ deleteSharedFile (fun s => s) "/shared" (fun _ => true) (fun _ => Except.ok ())
      (some "a.txt") = Except.ok true
  ∧ deleteSharedFile (fun s => s) "/shared" (fun _ => true)
      (fun _ => Except.error "ENOENT") (some "a.txt") = Except.ok false
  ∧ deleteSharedFile (fun s => s) "/shared" (fun _ => true)
      (fun _ => Except.error "EACCES") (some "a.txt") =
      Except.error (SvcErr.fs "EACCES")
  ∧ deleteFile (fun s => s) "/shared" (fun _ => false) (fun _ => Except.ok ())
      (some "b.txt") = Except.error SvcErr.enoent := by
  refine ⟨?_, ?_, ?_, ?_, ?_, ?_, ?_⟩
  · exact ((c6_delete_best_effort (fun s => s) "/shared" (fun _ => false)
      (fun _ => Except.ok ()) (some "../x") "").1 (by decide)).1
  · exact ((c6_delete_best_effort (fun s => s) "/shared" (fun _ => false)
      (fun _ => Except.ok ()) (some "../x") "").1 (by decide)).2
  · exact ((c6_delete_best_effort (fun s => s) "/shared" (fun _ => false)
      (fun _ => Except.ok ()) (some "a.txt") "/shared/a.txt").2.1 rfl).1 rfl
  · exact (((c6_delete_best_effort (fun s => s) "/shared" (fun _ => true)
      (fun _ => Except.ok ()) (some "a.txt") "/shared/a.txt").2.1 rfl).2.1) rfl rfl
  · exact (((c6_delete_best_effort (fun s => s) "/shared" (fun _ => true)
      (fun _ => Except.error "ENOENT") (some "a.txt") "/shared/a.txt").2.1
      rfl).2.2.1) rfl rfl
  · exact (((c6_delete_best_effort (fun s => s) "/shared" (fun _ => true)
      (fun _ => Except.error "EACCES") (some "a.txt") "/shared/a.txt").2.1
      rfl).2.2.2) "EACCES" rfl rfl (by decide)
  · exact (c6_delete_best_effort (fun s => s) "/shared" (fun _ => false)
      (fun _ => Except.ok ()) (some "b.txt") "/shared/b.txt").2.2 rfl rfl

/-- C7: updating with a note that trims to blank removes the note field
entirely from the persisted record (never an empty string); providing
neither text nor note signals `EINVAL_TEXT`, as does a provided text
that trims to blank. -/
theorem c7_update_note_removal_and_text_validation
    (idv : JsVal) (n : Int) (s : String) (ledger newLedger : List Message)
    (upd : Message) (hn : jsToNumber idv = some n) :
    (jsTrim s = "" →
      updateMessageById idv JsVal.undef (JsVal.str s) ledger =
        ([newLedger], .ok upd) →
      upd.note = none ∧ ∃ i : Nat, newLedger[i]? = some upd)
  ∧ updateMessageById idv JsVal.undef JsVal.undef ledger = ([], .error .einvalText)
  ∧ (jsTrim s = "" → ∀ note,
      updateMessageById idv (JsVal.str s) note ledger =
        ([], .error .einvalText)) := by
  refine ⟨?_, ?_, ?_⟩
  · intro hts hcall
    simp only [updateMessageById, hn] at hcall
    rw [if_neg (by simp)] at hcall
    rw [if_neg (by simp)] at hcall
    cases hu : updateFirstById n (applyUpdate JsVal.undef (JsVal.str s)) ledger with
    | none =>
      rw [hu] at hcall
      exact absurd hcall (by simp)
    | some pr =>
      obtain ⟨u, l'⟩ := pr
      rw [hu] at hcall
      have hl : l' = newLedger := by
        have hfst := congrArg Prod.fst hcall
        simp at hfst
        exact hfst
      have hum : u = upd := by
        have hsnd := congrArg Prod.snd hcall
        simp at hsnd
        exact hsnd
      obtain ⟨i, hi, hueq, hset⟩ := updateFirstById_some n _ ledger u l' hu
      constructor
      · rw [← hum, hueq]
        simp [applyUpdate, jsTextTrim, hts]
      · refine ⟨i, ?_⟩
        rw [← hl, hset, ← hum]
        exact List.getElem?_set_self (by simpa using hi)
  · simp [updateMessageById, hn]
  · intro hts note
    have hcond : JsVal.str s ≠ JsVal.undef ∧ jsTextTrim (JsVal.str s) = "" :=
      ⟨by simp, by simp [jsTextTrim, hts]⟩
    simp only [updateMessageById, hn]
    rw [if_neg (by simp), if_pos hcond]

/-- Witness for C7 at a concrete ledger. -/
theorem c7_update_note_removal_witness :
    (⟨5, "x", "T", none, none⟩ : Message).note = none
  ∧ (∃ i : Nat, ([⟨5, "x", "T", none, none⟩] : List Message)[i]? =
      some ⟨5, "x", "T", none, none⟩)
  ∧ updateMessageById (JsVal.str "5") JsVal.undef JsVal.undef
      [⟨5, "x", "T", some "old", none⟩] = ([], .error .einvalText)
  ∧ updateMessageById (JsVal.str "5") (JsVal.str " ") JsVal.undef
      [⟨5, "x", "T", some "old", none⟩] = ([], .error .einvalText) := by
  have h := c7_update_note_removal_and_text_validation (JsVal.str "5") 5 " "
    [⟨5, "x", "T", some "old", none⟩] [⟨5, "x", "T", none, none⟩]
    ⟨5, "x", "T", none, none⟩ (by decide)
  have h1 := h.1 (by decide) rfl
  exact ⟨h1.1, h1.2, h.2.1, h.2.2 (by decide) JsVal.undef⟩

/-- C8: a successful update replaces only the targeted record in place:
its id, createdAt and files are unchanged, the ledger length is
unchanged, every other position is untouched and the insertion order is
preserved (the new ledger is a pointwise `set`). -/
theorem c8_update_touches_only_target
    (idv text note : JsVal) (ledger newLedger : List Message) (upd : Message)
    (h : updateMessageById idv text note ledger = ([newLedger], .ok upd)) :
    ∃ i, ∃ hi : i < ledger.length,
      newLedger = ledger.set i upd
      ∧ upd.id = (ledger.get ⟨i, hi⟩).id
      ∧ upd.createdAt = (ledger.get ⟨i, hi⟩).createdAt
      ∧ upd.files = (ledger.get ⟨i, hi⟩).files
      ∧ newLedger.length = ledger.length
      ∧ ∀ j, j ≠ i → newLedger[j]? = ledger[j]? := by
  cases hn : jsToNumber idv with
  | none =>
    simp only [updateMessageById, hn] at h
    exact absurd h (by simp)
  | some n =>
    simp only [updateMessageById, hn] at h
    by_cases h1 : text = JsVal.undef ∧ note = JsVal.undef
    · rw [if_pos h1] at h
      exact absurd h (by simp)
    · rw [if_neg h1] at h
      by_cases h2 : text ≠ JsVal.undef ∧ jsTextTrim text = ""
      · rw [if_pos h2] at h
        exact absurd h (by simp)
      · rw [if_neg h2] at h
        cases hu : updateFirstById n (applyUpdate text note) ledger with
        | none =>
          rw [hu] at h
          exact absurd h (by simp)
        | some pr =>
          obtain ⟨u, l'⟩ := pr
          rw [hu] at h
          have hl : l' = newLedger := by
            have hfst := congrArg Prod.fst h
            simp at hfst
            exact hfst
          have hum : u = upd := by
            have hsnd := congrArg Prod.snd h
            simp at hsnd
            exact hsnd
          obtain ⟨i, hi, hueq, hset⟩ := updateFirstById_some n _ ledger u l' hu
          refine ⟨i, hi, ?_, ?_, ?_, ?_, ?_, ?_⟩
          · rw [← hl, hset, hum]
          · rw [← hum, hueq]
            simp [applyUpdate]
          · rw [← hum, hueq]
            simp [applyUpdate]
          · rw [← hum, hueq]
            simp [applyUpdate]
          · rw [← hl, hset]
            simp
          · intro j hj
            rw [← hl, hset]
            exact List.getElem?_set_ne (Ne.symm hj)

/-- Witness for C8 at a concrete update. -/
theorem c8_update_touches_only_target_witness :
    ∃ i, ∃ hi : i < ([⟨6, "x", "T", some "old", none⟩] : List Message).length,
      [⟨6, "y", "T", some "old", none⟩] =
        ([⟨6, "x", "T", some "old", none⟩] : List Message).set i
          ⟨6, "y", "T", some "old", none⟩
      ∧ (⟨6, "y", "T", some "old", none⟩ : Message).id =
          (([⟨6, "x", "T", some "old", none⟩] : List Message).get ⟨i, hi⟩).id
      ∧ (⟨6, "y", "T", some "old", none⟩ : Message).createdAt =
          (([⟨6, "x", "T", some "old", none⟩] : List Message).get ⟨i, hi⟩).createdAt
      ∧ (⟨6, "y", "T", some "old", none⟩ : Message).files =
          (([⟨6, "x", "T", some "old", none⟩] : List Message).get ⟨i, hi⟩).files
      ∧ ([⟨6, "y", "T", some "old", none⟩] : List Message).length =
          ([⟨6, "x", "T", some "old", none⟩] : List Message).length
      ∧ ∀ j, j ≠ i →
          ([⟨6, "y", "T", some "old", none⟩] : List Message)[j]? =
          ([⟨6, "x", "T", some "old", none⟩] : List Message)[j]? :=
  c8_update_touches_only_target (JsVal.str "6") (JsVal.str " y ") JsVal.undef
    [⟨6, "x", "T", some "old", none⟩] [⟨6, "y", "T", some "old", none⟩]
    ⟨6, "y", "T", some "old", none⟩ rfl

/-- C9: the id operations signal `EINVAL_ID` exactly when the JavaScript
numeric coercion of the id input is non-finite; the empty string,
whitespace-only strings and null coerce to 0, so those inputs are looked
up as id 0 and yield `ENOENT` when no record has id 0. -/
theorem c9_invalid_id_only_for_nonfinite
    (idv text note : JsVal) (ledger : List Message) :
    ((deleteMessageById idv ledger).2 = .error .einvalId ↔ jsToNumber idv = none)
  ∧ ((updateMessageById idv text note ledger).2 = .error .einvalId ↔
      jsToNumber idv = none)
  ∧ jsToNumber (JsVal.str "") = some 0
  ∧ jsToNumber (JsVal.str "   ") = some 0
  ∧ jsToNumber JsVal.nullV = some 0
  ∧ ((∀ m ∈ ledger, m.id ≠ 0) →
      (deleteMessageById (JsVal.str "") ledger).2 = .error .enoent
      ∧ (deleteMessageById JsVal.nullV ledger).2 = .error .enoent
      ∧ (deleteMessageById (JsVal.str "   ") ledger).2 = .error .enoent) := by
  refine ⟨?_, ?_, by decide, by decide, rfl, ?_⟩
  · cases hn : jsToNumber idv with
    | none => simp [deleteMessageById, hn]
    | some n =>
      simp only [deleteMessageById, hn]
      cases hr : removeFirstById n ledger with
      | none => simp
      | some pr =>
        obtain ⟨a, b⟩ := pr
        simp
  · cases hn : jsToNumber idv with
    | none => simp [updateMessageById, hn]
    | some n =>
      simp only [updateMessageById, hn]
      by_cases h1 : text = JsVal.undef ∧ note = JsVal.undef
      · rw [if_pos h1]
        simp
      · rw [if_neg h1]
        by_cases h2 : text ≠ JsVal.undef ∧ jsTextTrim text = ""
        · rw [if_pos h2]
          simp
        · rw [if_neg h2]
          cases hu : updateFirstById n (applyUpdate text note) ledger with
          | none => simp
          | some pr =>
            obtain ⟨u, l'⟩ := pr
            simp
  · intro hno
    have h0 : removeFirstById 0 ledger = none :=
      (removeFirstById_none_iff 0 ledger).mpr hno
    have hc1 : jsToNumber (JsVal.str "") = some 0 := rfl
    have hc2 : jsToNumber JsVal.nullV = some 0 := rfl
    have hc3 : jsToNumber (JsVal.str "   ") = some 0 := by decide
    exact ⟨by simp [deleteMessageById, hc1, h0], by simp [deleteMessageById, hc2, h0],
      by simp [deleteMessageById, hc3, h0]⟩

/-- Witness for C9 at a concrete ledger. -/
theorem c9_invalid_id_only_for_nonfinite_witness :
    (deleteMessageById (JsVal.str "") [⟨5, "x", "T", none, none⟩]).2 =
      .error .enoent
  ∧ (deleteMessageById JsVal.nullV [⟨5, "x", "T", none, none⟩]).2 =
      .error .enoent
  ∧ (deleteMessageById (JsVal.str "   ") [⟨5, "x", "T", none, none⟩]).2 =
      .error .enoent
  ∧ (deleteMessageById JsVal.undef [⟨5, "x", "T", none, none⟩]).2 =
      .error .einvalId := by
  have h := c9_invalid_id_only_for_nonfinite JsVal.undef JsVal.undef JsVal.undef
    [⟨5, "x", "T", none, none⟩]
  have h6 := h.2.2.2.2.2 (by decide)
  exact ⟨h6.1, h6.2.1, h6.2.2, h.1.mpr rfl⟩

/-- C10: every mutating Message Store operation performs no ledger write
when it signals an error: the list of `writeMessages` calls is empty in
every error outcome, so the persisted sequence is untouched. -/
theorem c10_no_write_on_error (now : Int) (nowIso : String) (text note idv : JsVal)
    (files : List MessageFile) (ledger : List Message) (e : SvcErr) :
    ((appendMessage now nowIso text ledger).2 = .error e →
      (appendMessage now nowIso text ledger).1 = [])
  ∧ ((appendMessageWithFiles now nowIso text files ledger).2 = .error e →
      (appendMessageWithFiles now nowIso text files ledger).1 = [])
  ∧ ((deleteMessageById idv ledger).2 = .error e →
      (deleteMessageById idv ledger).1 = [])
  ∧ ((updateMessageById idv text note ledger).2 = .error e →
      (updateMessageById idv text note ledger).1 = []) := by
  refine ⟨?_, ?_, ?_, ?_⟩
  · by_cases h : jsTextTrim text = "" <;> simp [appendMessage, h]
  · by_cases h : files = [] <;> by_cases h2 : jsTextTrim text = "" <;>
      simp [appendMessageWithFiles, h, h2]
  · cases hn : jsToNumber idv with
    | none => simp [deleteMessageById, hn]
    | some n =>
      cases hr : removeFirstById n ledger with
      | none => simp [deleteMessageById, hn, hr]
      | some pr =>
        obtain ⟨a, b⟩ := pr
        simp [deleteMessageById, hn, hr]
  · cases hn : jsToNumber idv with
    | none => simp [updateMessageById, hn]
    | some n =>
      by_cases h1 : text = JsVal.undef ∧ note = JsVal.undef
      · simp [updateMessageById, hn, h1]
      · by_cases h2 : text ≠ JsVal.undef ∧ jsTextTrim text = ""
        · simp [updateMessageById, hn, h1, h2]
        · cases hu : updateFirstById n (applyUpdate text note) ledger with
          | none => simp [updateMessageById, hn, h1, h2, hu]
          | some pr =>
            obtain ⟨u, l'⟩ := pr
            simp [updateMessageById, hn, h1, h2, hu]

/-- Witness for C10 at concrete erroring calls. -/
theorem c10_no_write_on_error_witness :
    (appendMessage 1 "T" (JsVal.str " ") []).1 = []
  ∧ (appendMessageWithFiles 1 "T" (JsVal.str "x") [] []).1 = []
  ∧ (deleteMessageById JsVal.undef []).1 = []
  ∧ (updateMessageById (JsVal.str "1") (JsVal.str " ") JsVal.undef []).1 = [] :=
  ⟨(c10_no_write_on_error 1 "T" (JsVal.str " ") JsVal.undef (JsVal.str "1") [] []
      SvcErr.einvalText).1 rfl,
   (c10_no_write_on_error 1 "T" (JsVal.str "x") JsVal.undef (JsVal.str "1") [] []
      SvcErr.einvalText).2.1 rfl,
   (c10_no_write_on_error 1 "T" (JsVal.str " ") JsVal.undef JsVal.undef [] []
      SvcErr.einvalId).2.2.1 rfl,
   (c10_no_write_on_error 1 "T" (JsVal.str " ") JsVal.undef (JsVal.str "1") [] []
      SvcErr.einvalText).2.2.2 rfl⟩

end Fileshare
